import Mathlib

/-
  Verification of the advanced-vector container
  (src/advanced-vector/vector.h).

  Shallow embedding:
  * `RawMemory` (the C++ class template `RawMemory<T>`, vector.h lines
    9-204) is modelled together with an explicit heap of allocation
    identifiers, so that "released by exactly one matching deallocation
    call" becomes checkable: `Heap.live` holds the ids of regions that
    were allocated and not yet deallocated, `Heap.freed` logs every
    deallocation of a non-null region in order.
  * `Vector` (the C++ class template `Vector<T>`, lines 49-563) is
    modelled by the sequence of live elements (`elems`, the constructed
    objects in slots `[0, size)`, so `size = elems.length`) together
    with the capacity of the owned block (`cap`).  Moves of element
    values are modelled as value copies, which is exact for trivially
    copyable element types such as int.
  * Operations whose exception behaviour matters are additionally
    embedded with an explicit failure model: a copy constructor becomes
    `copy : α → Option α` (`none` = the constructor throws) and a
    default constructor of the j-th constructed element becomes `ds j`.
    For the growth path of `Emplace` the new block is modelled slot by
    slot (`List (Option α)`, `none` = no live object in the slot), so
    that the destroy-without-rethrow behaviour of the code is captured
    faithfully.
-/

namespace AdvVector

/-- Allocator state: `next` is the id of the next region handed out,
`live` the ids allocated and not yet deallocated, `freed` the log of
deallocations of non-null regions. -/
structure Heap where
  next : Nat
  live : List Nat
  freed : List Nat
deriving DecidableEq, Repr

def Heap.start : Heap := ⟨0, [], []⟩

/-- Model of `RawMemory<T>`: an optional owned region id (`none` models
a null `buffer_`) and the stored capacity. -/
structure RawMemory where
  region : Option Nat
  capacity : Nat
deriving DecidableEq, Repr

/-- `RawMemory<T>::Allocate` (vector.h lines 194-198): `n != 0` calls
operator new and yields a fresh region; `n == 0` yields nullptr without
touching the allocator. -/
def RawMemory.Allocate (H : Heap) (n : Nat) : Heap × Option Nat :=
  if n = 0 then (H, none)
  else (⟨H.next + 1, H.next :: H.live, H.freed⟩, some H.next)

/-- `RawMemory<T>::Deallocate` (lines 200-204): operator delete; a null
pointer is a no-op. -/
def RawMemory.Deallocate (H : Heap) : Option Nat → Heap
  | none => H
  | some r => ⟨H.next, H.live.erase r, H.freed ++ [r]⟩

/-- The constructor `RawMemory(size_t capacity)` (lines 112-116). -/
def RawMemory.create (H : Heap) (n : Nat) : Heap × RawMemory :=
  ((RawMemory.Allocate H n).1, ⟨(RawMemory.Allocate H n).2, n⟩)

/-- The destructor `~RawMemory()` (lines 136-140): `Deallocate(buffer_)`. -/
def RawMemory.dtor (H : Heap) (m : RawMemory) : Heap :=
  RawMemory.Deallocate H m.region

/-- Move assignment `RawMemory::operator=(RawMemory&&)` (lines 126-134),
translated statement by statement: `buffer_ = rhs.buffer_` overwrites the
old region without any `Deallocate` call, then rhs is nulled.  The heap
is not an argument because the code performs no allocator call at all. -/
def RawMemory.moveAssign (a rhs : RawMemory) : RawMemory × RawMemory :=
  (⟨rhs.region, rhs.capacity⟩, (⟨none, 0⟩ : RawMemory))

/-- A trace exercising move assignment: construct `a` and `b` with
capacity 1 each, run `a = std::move(b)`, then destroy both objects.
The heap that remains records what was leaked and what was freed. -/
def c3Trace : Heap :=
  let p1 := RawMemory.create Heap.start 1
  let p2 := RawMemory.create p1.1 1
  let q := RawMemory.moveAssign p1.2 p2.2
  let h3 := RawMemory.dtor p2.1 q.1
  RawMemory.dtor h3 q.2

/-- Model of `Vector<T>` (lines 49-563): the live elements in slots
`[0, size)` (so `size_` is `elems.length`) and `data_.Capacity()`. -/
structure Vector (α : Type) where
  elems : List α
  cap : Nat
deriving DecidableEq, Repr

/-- The class invariant: `0 ≤ size ≤ capacity`.  In this embedding the
live-prefix part of the invariant (each slot of `[0, size)` holds
exactly one live object, slots `[size, capacity)` none) is structural:
`elems` is exactly the list of live objects of the prefix. -/
abbrev Vector.Inv {α : Type} (v : Vector α) : Prop :=
  v.elems.length ≤ v.cap

/-- Default constructor `Vector() = default` (line 62): null block,
capacity 0, size 0. -/
def Vector.empty (α : Type) : Vector α := ⟨[], 0⟩

/-- `Vector(size_t size)` (lines 242-248): allocates exactly `size`
capacity and value-constructs `size` elements; `d` is the value produced
by the element default constructor. -/
def Vector.sized {α : Type} (d : α) (n : Nat) : Vector α :=
  ⟨List.replicate n d, n⟩

/-- Copy constructor (lines 250-256): allocates `other.size_` capacity
and copy-constructs the elements. -/
def Vector.copyCtor {α : Type} (other : Vector α) : Vector α :=
  ⟨other.elems, other.elems.length⟩

/-- Move constructor (lines 295-301): steals block and size, the source
is left with a null block, capacity 0 and size 0.  First component: the
new object; second: the moved-from source. -/
def Vector.moveCtor {α : Type} (other : Vector α) : Vector α × Vector α :=
  (⟨other.elems, other.cap⟩, ⟨[], 0⟩)

/-- `Vector::Swap` (lines 310-315): swaps the blocks and the sizes. -/
def Vector.Swap {α : Type} (a b : Vector α) : Vector α × Vector α :=
  (⟨b.elems, b.cap⟩, ⟨a.elems, a.cap⟩)

/-- Move assignment (lines 303-308): `Swap(rhs)` and nothing else; it is
noexcept, which the embedding reflects by being a total function. -/
def Vector.MoveAssign {α : Type} (a rhs : Vector α) : Vector α × Vector α :=
  Vector.Swap a rhs

/-- Copy assignment (lines 258-293).  `isSelf` models the pointer test
`this != &rhs` (true when `this == &rhs`).  The result carries, besides
the new state of `*this`, the number of element copy operations
(copy-assignments plus copy-constructions) and the number of element
destructions the code performs, so that "no element copied or
destroyed" is expressible.  Branches, in source order: self-check;
`capacity >= rhs.size_` with `rhs.size_ < size_` (copy-assign prefix,
destroy surplus tail); same with `rhs.size_ >= size_` (copy-assign
prefix, copy-construct the rest); otherwise copy-and-swap (the
temporary copy-constructs `rhs.size_` elements, and its destructor
destroys the `size_` old elements received in the swap). -/
def Vector.CopyAssign {α : Type} (isSelf : Bool) (a rhs : Vector α) :
    Vector α × Nat × Nat :=
  if isSelf then (a, 0, 0)
  else if rhs.elems.length ≤ a.cap then
    if rhs.elems.length < a.elems.length then
      (⟨rhs.elems, a.cap⟩, rhs.elems.length, a.elems.length - rhs.elems.length)
    else
      (⟨rhs.elems, a.cap⟩, rhs.elems.length, 0)
  else
    (⟨rhs.elems, rhs.elems.length⟩, rhs.elems.length, a.elems.length)

/-- `Vector::Reserve` (lines 329-345): no-op when `new_capacity` does
not exceed the capacity; otherwise a new block of exactly `new_capacity`
is filled with the elements (moved or copied, which coincide on values)
and swapped in, leaving the element sequence intact. -/
def Vector.Reserve {α : Type} (v : Vector α) (n : Nat) : Vector α :=
  if n ≤ v.cap then v else ⟨v.elems, n⟩

/-- Outcomes of `k` consecutive default constructions starting with call
number `s`: the j-th call yields `ds (s + offset)`; `none` anywhere means
that call threw.  Models `std::uninitialized_value_construct`, which on
failure destroys the objects it already constructed. -/
def constructN {α : Type} (ds : Nat → Option α) (s : Nat) : Nat → Option (List α)
  | 0 => some []
  | k + 1 =>
    match ds s with
    | none => none
    | some y =>
      match constructN ds (s + 1) k with
      | none => none
      | some ys => some (y :: ys)

/-- `Vector::Resize` (lines 347-363) with fallible default construction.
Shrinking destroys `[new_size, size_)`.  Growing first runs `Reserve`,
then value-constructs `[size_, new_size)`; if a construction throws, the
exception escapes (`true`) before the final `size_ = new_size`
assignment, so the element sequence is unchanged (capacity may have
grown).  The Bool records whether an exception escaped. -/
def Vector.ResizeF {α : Type} (v : Vector α) (ds : Nat → Option α) (n : Nat) :
    Bool × Vector α :=
  if n ≤ v.elems.length then (false, ⟨v.elems.take n, v.cap⟩)
  else
    match constructN ds 0 (n - v.elems.length) with
    | some ys => (false, ⟨(v.Reserve n).elems ++ ys, (v.Reserve n).cap⟩)
    | none => (true, ⟨(v.Reserve n).elems, (v.Reserve n).cap⟩)

/-- `Vector::Resize` when default construction cannot fail. -/
def Vector.Resize {α : Type} (v : Vector α) (d : α) (n : Nat) : Vector α :=
  (v.ResizeF (fun _ => some d) n).2

/-- `Vector::EmplaceBack` (lines 450-481) with non-failing element
operations.  In place when `size_ < Capacity()`; otherwise a growth
cycle with new capacity `size_ == 0 ? 1 : size_ * 2`, constructing the
new element at slot `size_` of the new block, relocating the old
elements and swapping.  `PushBack` (lines 365-375) delegates here. -/
def Vector.EmplaceBack {α : Type} (v : Vector α) (x : α) : Vector α :=
  if v.elems.length < v.cap then ⟨v.elems ++ [x], v.cap⟩
  else ⟨v.elems ++ [x], if v.elems.length = 0 then 1 else 2 * v.elems.length⟩

/-- `Vector::PopBack` (lines 377-382): destroys the last element. -/
def Vector.PopBack {α : Type} (v : Vector α) : Vector α :=
  ⟨v.elems.dropLast, v.cap⟩

/-- `Vector::Emplace` (lines 483-563) with non-failing element
operations; `Insert` (lines 384-394) delegates here, `i` is
`pos - begin()`.  In-place path (`size_ != Capacity()`), translated
faithfully from the source: with `size_ > 0` a temporary is built, the
last element is move-constructed into slot `size_`, and ONLY IF
`id + 1 < size_` are the elements shifted and the temporary
move-assigned into slot `id`; otherwise the temporary is destroyed
without ever being stored and the result is the old sequence followed
by a second copy of its last element (`getLastD` never uses its default
here, since the branch has `size_ > 0`).  With `size_ == 0` the value
is constructed directly into slot 0.  Growth path (`size_ ==
Capacity()`): new block of capacity `size_ == 0 ? 1 : size_ * 2` with
the new element at slot `id`, the prefix at `[0, id)` and the suffix
shifted one to the right. -/
def Vector.Emplace {α : Type} (v : Vector α) (i : Nat) (x : α) : Vector α :=
  if v.elems.length ≠ v.cap then
    if 0 < v.elems.length then
      if i + 1 < v.elems.length then
        ⟨v.elems.take i ++ x :: v.elems.drop i, v.cap⟩
      else
        ⟨v.elems ++ [v.elems.getLastD x], v.cap⟩
    else ⟨[x], v.cap⟩
  else
    ⟨v.elems.take i ++ x :: v.elems.drop i,
      if v.elems.length = 0 then 1 else 2 * v.elems.length⟩

/-- `Vector::Erase` (lines 396-403): move-assign `[pos+1, end)` one slot
left, destroy the vacated last slot, decrement the size. -/
def Vector.Erase {α : Type} (v : Vector α) (i : Nat) : Vector α :=
  ⟨v.elems.take i ++ v.elems.drop (i + 1), v.cap⟩

/-- A sequence of appends, `foldl` over `EmplaceBack`. -/
def appendAll {α : Type} (xs : List α) (v : Vector α) : Vector α :=
  xs.foldl Vector.EmplaceBack v

/-- Run a fallible copy constructor over a list, in order.  `inl ys`:
every copy succeeded, `ys` are the copies.  `inr ys`: some copy threw
and `ys` are the copies constructed before the failure. -/
def copyRun {α : Type} (copy : α → Option α) : List α → List α ⊕ List α
  | [] => Sum.inl []
  | x :: xs =>
    match copy x with
    | none => Sum.inr []
    | some y =>
      match copyRun copy xs with
      | Sum.inl ys => Sum.inl (y :: ys)
      | Sum.inr ys => Sum.inr (y :: ys)

/-- Construct the values `xs` into consecutive slots of block `b`
starting at slot `s` (placement new into raw storage). -/
def writeSlots {α : Type} : List (Option α) → Nat → List α → List (Option α)
  | b, _, [] => b
  | b, s, x :: xs => writeSlots (b.set s (some x)) (s + 1) xs

/-- Destroy the objects in slots `[0, k)` of block `b`
(`DestroyN(buf, k)`, lines 424-430). -/
def clearSlots {α : Type} (b : List (Option α)) (k : Nat) : List (Option α) :=
  b.mapIdx fun j o => if j < k then none else o

/-- `Vector::EmplaceBack` (lines 450-481) on the growth path's
copy-relocation branch (`T` copyable, move not noexcept), with a
fallible copy constructor; models `PushBack(const T&)`, whose initial
`new (new_data + size_) T(value)` is itself a copy.  The Bool records
whether an exception escaped to the caller (EmplaceBack has no
try/catch, so every element failure escapes), and the `Vector` is the
observable state afterwards: on failure nothing was swapped and
`size_` was not incremented, so the state is the argument itself. -/
def Vector.EmplaceBackCopy {α : Type} (copy : α → Option α) (v : Vector α)
    (x : α) : Bool × Vector α :=
  if v.elems.length < v.cap then
    match copy x with
    | none => (true, v)
    | some y => (false, ⟨v.elems ++ [y], v.cap⟩)
  else
    match copy x with
    | none => (true, v)
    | some y =>
      match copyRun copy v.elems with
      | Sum.inr _ => (true, v)
      | Sum.inl ys =>
        (false, ⟨ys ++ [y], if v.elems.length = 0 then 1 else 2 * v.elems.length⟩)

/-- Observable outcome of the growth path of `Emplace`: whether an
exception escaped to the caller, the final `size_` and capacity, and
the final block slot by slot (`none` = the slot holds no live object). -/
structure GrowResult (α : Type) where
  threw : Bool
  size : Nat
  cap : Nat
  slots : List (Option α)
deriving DecidableEq, Repr

/-- The growth path of `Vector::Emplace` (lines 509-560) on the
copy-relocation branch, translated statement by statement with a
fallible copy constructor.  `mkNew` is the outcome of the initial
`new (new_data + id) T(args...)`; it sits outside both try blocks, so
its failure escapes with the vector untouched.  The prefix loop copies
`[0, id)`; its catch runs `Destroy(new_data + id)` and DOES NOT
rethrow.  The suffix loop copies `[id, size_)` into `[id+1, size_+1)`;
its catch runs `DestroyN(new_data.GetAddress(), id + 1)` and DOES NOT
rethrow.  Afterwards the code unconditionally destroys the old
elements, swaps the blocks and increments `size_`, returning normally
even when a copy threw. -/
def EmplaceGrowCopy {α : Type} (mkNew : Option α) (copy : α → Option α)
    (v : Vector α) (i : Nat) : GrowResult α :=
  let size := v.elems.length
  let cap' := if size = 0 then 1 else 2 * size
  match mkNew with
  | none => ⟨true, size, v.cap, v.elems.map some⟩
  | some y =>
    let b0 := (List.replicate cap' (none : Option α)).set i (some y)
    let b1 :=
      match copyRun copy (v.elems.take i) with
      | Sum.inl ps => writeSlots b0 0 ps
      | Sum.inr ps => List.set (writeSlots b0 0 ps) i none
    let b2 :=
      match copyRun copy (v.elems.drop i) with
      | Sum.inl ss => writeSlots b1 (i + 1) ss
      | Sum.inr ss => clearSlots (writeSlots b1 (i + 1) ss) (i + 1)
    ⟨false, size + 1, cap', b2⟩

/-- Live-prefix invariant on a growth outcome: every slot below the
recorded size holds a live object. -/
def livePrefixOk {α : Type} (r : GrowResult α) : Prop :=
  ∀ j, j < r.size → (r.slots.getD j none).isSome = true

instance {α : Type} (r : GrowResult α) : Decidable (livePrefixOk r) :=
  Nat.decidableBallLT r.size fun j _ => (r.slots.getD j none).isSome = true

/-- A copy constructor that throws exactly on the value `k`. -/
def failAt (k : Nat) : Nat → Option Nat :=
  fun a => if a = k then none else some a

/-! Helper lemmas. -/

theorem Vector.EmplaceBack_elems {α : Type} (v : Vector α) (x : α) :
    (v.EmplaceBack x).elems = v.elems ++ [x] := by
  unfold Vector.EmplaceBack; split <;> rfl

theorem Vector.EmplaceBack_cap_of_lt {α : Type} (v : Vector α) (x : α)
    (h : v.elems.length < v.cap) : (v.EmplaceBack x).cap = v.cap := by
  unfold Vector.EmplaceBack; rw [if_pos h]

theorem Vector.EmplaceBack_Inv {α : Type} (v : Vector α) (x : α) :
    (v.EmplaceBack x).Inv := by
  unfold Vector.EmplaceBack
  split
  · next h => simp only [Vector.Inv, List.length_append, List.length_singleton]; omega
  · next h =>
    simp only [Vector.Inv, List.length_append, List.length_singleton]
    split <;> omega

theorem appendAll_cons {α : Type} (x : α) (xs : List α) (v : Vector α) :
    appendAll (x :: xs) v = appendAll xs (v.EmplaceBack x) := rfl

theorem appendAll_elems {α : Type} (xs : List α) :
    ∀ v : Vector α, (appendAll xs v).elems = v.elems ++ xs := by
  induction xs with
  | nil => intro v; simp [appendAll]
  | cons x xs ih =>
    intro v
    rw [appendAll_cons, ih, Vector.EmplaceBack_elems]
    simp

theorem appendAll_Inv {α : Type} (xs : List α) :
    ∀ v : Vector α, v.Inv → (appendAll xs v).Inv := by
  induction xs with
  | nil => intro v h; exact h
  | cons x xs ih =>
    intro v _
    rw [appendAll_cons]
    exact ih _ (Vector.EmplaceBack_Inv v x)

theorem appendAll_cap_of_le {α : Type} (xs : List α) :
    ∀ v : Vector α, v.elems.length + xs.length ≤ v.cap →
      (appendAll xs v).cap = v.cap := by
  induction xs with
  | nil => intro v _; rfl
  | cons x xs ih =>
    intro v h
    simp only [List.length_cons] at h
    have hlt : v.elems.length < v.cap := by omega
    rw [appendAll_cons, ih, Vector.EmplaceBack_cap_of_lt v x hlt]
    rw [Vector.EmplaceBack_elems, Vector.EmplaceBack_cap_of_lt v x hlt]
    simp only [List.length_append, List.length_singleton]
    omega

theorem Vector.Reserve_elems {α : Type} (v : Vector α) (n : Nat) :
    (v.Reserve n).elems = v.elems := by
  unfold Vector.Reserve; split <;> rfl

theorem Vector.Reserve_cap {α : Type} (v : Vector α) (n : Nat) :
    (v.Reserve n).cap = max v.cap n := by
  unfold Vector.Reserve
  split
  · next h => exact (Nat.max_eq_left h).symm
  · next h => exact (Nat.max_eq_right (Nat.le_of_not_le h)).symm

theorem constructN_const {α : Type} (d : α) :
    ∀ (k s : Nat), constructN (fun _ => some d) s k = some (List.replicate k d) := by
  intro k
  induction k with
  | zero => intro s; rfl
  | succ k ih => intro s; simp [constructN, ih, List.replicate_succ]

theorem Vector.Resize_shrink {α : Type} (v : Vector α) (d : α) (n : Nat)
    (h : n ≤ v.elems.length) : v.Resize d n = ⟨v.elems.take n, v.cap⟩ := by
  unfold Vector.Resize Vector.ResizeF
  rw [if_pos h]

theorem Vector.Resize_grow {α : Type} (v : Vector α) (d : α) (n : Nat)
    (h : v.elems.length < n) :
    v.Resize d n =
      ⟨v.elems ++ List.replicate (n - v.elems.length) d, max v.cap n⟩ := by
  unfold Vector.Resize Vector.ResizeF
  rw [if_neg (by omega)]
  simp [constructN_const, Vector.Reserve_elems, Vector.Reserve_cap]

theorem Vector.Emplace_Inv {α : Type} (v : Vector α) (i : Nat) (x : α)
    (h : v.Inv) : (v.Emplace i x).Inv := by
  have h' : v.elems.length ≤ v.cap := h
  unfold Vector.Emplace
  split
  · next hne =>
    split
    · next hpos =>
      split
      · simp only [Vector.Inv, List.length_append, List.length_cons,
          List.length_take, List.length_drop]
        omega
      · simp only [Vector.Inv, List.length_append, List.length_singleton]
        omega
    · next hpos =>
      simp only [Vector.Inv, List.length_singleton]
      omega
  · next hne =>
    simp only [Vector.Inv, List.length_append, List.length_cons,
      List.length_take, List.length_drop]
    split <;> omega

/-! The claims. -/

/-- C1: the claim states that Insert/Emplace at every position
`p ∈ [0, n]` stores the value at slot `p` and shifts the suffix,
in particular on the in-place path for `p = n-1` and `p = n`.
The code violates this: the in-place path (vector.h line 495) guards
both the backward shift and the final `data_[id] = std::move(obj)` by
`id + 1 < size_`, so for `p ≥ n-1` (with `n > 0`) the temporary is
destroyed without being stored.  Concretely, a vector holding `[10]`
with capacity 2, after `Insert` of `7` at position 1, holds `[10, 10]`
instead of `[10, 7]`. -/
theorem C1_in_place_insert_drops_value :
    Vector.Emplace (⟨[10], 2⟩ : Vector Nat) 1 7 = ⟨[10, 10], 2⟩ ∧
    (Vector.Emplace (⟨[10], 2⟩ : Vector Nat) 1 7).elems ≠ [10, 7] := by
  decide

/-- C2: the claim states that a copy-construction failure during the
growth cycle of Insert/Emplace propagates to the caller and leaves the
vector untouched.  The code violates this: both catch blocks (vector.h
lines 530-533 and 551-554) destroy objects but do not rethrow, after
which the function destroys the old elements, swaps the blocks,
increments `size_` and returns normally.  Concretely: a full vector
`[5, 6]` (size = capacity = 2), `Insert` of `9` at position 1 with a
copy constructor that throws on the value 5 (the prefix copy fails):
no exception escapes (`threw = false`), the size becomes 3, the
capacity 4, and the new block holds a live object only in slot 2 —
instead of the claimed unchanged `[5, 6]` with the failure
propagated. -/
theorem C2_growth_failure_swallowed :
    EmplaceGrowCopy (some 9) (failAt 5) (⟨[5, 6], 2⟩ : Vector Nat) 1 =
      ⟨false, 3, 4, [none, none, some 6, none]⟩ := by
  decide

/-- C3: the claim states that every RawMemory-owned region is released
by exactly one matching deallocation call, including the region owned
by the target of a move assignment.  The code violates this:
`RawMemory::operator=(RawMemory&&)` (vector.h lines 126-134) overwrites
`buffer_` without deallocating the old region.  In the trace `a(1);
b(1); a = std::move(b); ~a; ~b;` the region first allocated (id 0,
owned by `a` before the assignment) is still live at the end — it was
never deallocated — while only `b`'s region (id 1) was freed. -/
theorem C3_move_assign_leaks :
    c3Trace.live = [0] ∧ c3Trace.freed = [1] := by
  decide

/-- C4: appending to a full vector (`size == capacity`) whose element
type always fails to copy and is not nothrow-movable propagates the
failure and leaves size, capacity and all elements exactly as before:
in the growth path of `EmplaceBack` the new element is constructed
first (here by copy, which throws), outside any try block, before the
old elements are destroyed, the blocks swapped or `size_` incremented,
so the exception escapes with the original state intact. -/
theorem C4_full_append_copy_failure {α : Type} (copy : α → Option α)
    (v : Vector α) (x : α) (hfail : ∀ a, copy a = none)
    (hfull : v.elems.length = v.cap) :
    Vector.EmplaceBackCopy copy v x = (true, v) := by
  unfold Vector.EmplaceBackCopy
  rw [if_neg (by omega), hfail x]

/-- Witness for C4 at a concrete input: a full one-element vector and
an always-throwing copy constructor. -/
theorem C4_witness :
    Vector.EmplaceBackCopy (fun _ => none) (⟨[1], 1⟩ : Vector Nat) 9 =
      (true, ⟨[1], 1⟩) :=
  C4_full_append_copy_failure (fun _ => none) ⟨[1], 1⟩ 9 (fun _ => rfl) rfl

/-- C5: for every sequence of appends to an initially empty vector the
elements afterwards are exactly the appended sequence (so size after
`k` appends is `k`), the capacity is at least the size, each growth
event (append with `size = capacity`) sets the capacity to
`max(1, 2 * capacity)` while a non-growing append leaves it unchanged,
and the observed capacities after appending three elements are 1, 2
and 4. -/
theorem C5_append_doubling {α : Type} (xs : List α) (a b c x : α)
    (v : Vector α) :
    (appendAll xs (Vector.empty α)).elems = xs ∧
    xs.length ≤ (appendAll xs (Vector.empty α)).cap ∧
    (v.elems.length = v.cap → (v.EmplaceBack x).cap = max 1 (2 * v.cap)) ∧
    (v.elems.length < v.cap → (v.EmplaceBack x).cap = v.cap) ∧
    (appendAll [a] (Vector.empty α)).cap = 1 ∧
    (appendAll [a, b] (Vector.empty α)).cap = 2 ∧
    (appendAll [a, b, c] (Vector.empty α)).cap = 4 := by
  have helems : (appendAll xs (Vector.empty α)).elems = xs := by
    rw [appendAll_elems]; rfl
  refine ⟨helems, ?_, ?_, ?_, rfl, rfl, rfl⟩
  · have h := appendAll_Inv xs (Vector.empty α) (Nat.le_refl 0)
    have h' : (appendAll xs (Vector.empty α)).elems.length ≤
        (appendAll xs (Vector.empty α)).cap := h
    rw [helems] at h'
    exact h'
  · intro h
    unfold Vector.EmplaceBack
    rw [if_neg (by omega)]
    simp only
    rw [Nat.max_def]
    split <;> split <;> omega
  · intro h
    exact Vector.EmplaceBack_cap_of_lt v x h

/-- Witness for C5: the growth law at a full vector of capacity 1 and
capacity preservation at a vector with spare capacity. -/
theorem C5_witness :
    (Vector.EmplaceBack (⟨[5], 1⟩ : Vector Nat) 9).cap = max 1 2 ∧
    (Vector.EmplaceBack (⟨[5, 6], 4⟩ : Vector Nat) 9).cap = 4 :=
  ⟨(C5_append_doubling ([] : List Nat) 0 0 0 9 ⟨[5], 1⟩).2.2.1 rfl,
   (C5_append_doubling ([] : List Nat) 0 0 0 9 ⟨[5, 6], 4⟩).2.2.2.1 (by decide)⟩

/-- C7: `Reserve(n)` is a no-op when `n ≤ capacity`; otherwise it sets
the capacity to exactly `n` leaving the element sequence (hence the
size) unchanged; and afterwards any run of appends that stays within
`n` total elements never changes the capacity. -/
theorem C7_reserve {α : Type} (v : Vector α) (n : Nat) (xs : List α) :
    (n ≤ v.cap → v.Reserve n = v) ∧
    (v.cap < n → (v.Reserve n).elems = v.elems ∧ (v.Reserve n).cap = n) ∧
    (v.elems.length + xs.length ≤ n →
      (appendAll xs (v.Reserve n)).cap = (v.Reserve n).cap) := by
  refine ⟨?_, ?_, ?_⟩
  · intro h; unfold Vector.Reserve; rw [if_pos h]
  · intro h; unfold Vector.Reserve; rw [if_neg (by omega)]; exact ⟨rfl, rfl⟩
  · intro h
    apply appendAll_cap_of_le
    rw [Vector.Reserve_elems, Vector.Reserve_cap]
    exact Nat.le_trans h (Nat.le_max_right v.cap n)

/-- Witness for C7: no-op reserve, growing reserve, and appends after a
reserve that stay within the reserved capacity. -/
theorem C7_witness :
    Vector.Reserve (⟨[1], 2⟩ : Vector Nat) 2 = ⟨[1], 2⟩ ∧
    ((Vector.Reserve (⟨[1], 1⟩ : Vector Nat) 3).elems = [1] ∧
      (Vector.Reserve (⟨[1], 1⟩ : Vector Nat) 3).cap = 3) ∧
    (appendAll [2, 3] (Vector.Reserve (⟨[1], 1⟩ : Vector Nat) 3)).cap =
      (Vector.Reserve (⟨[1], 1⟩ : Vector Nat) 3).cap :=
  ⟨(C7_reserve ⟨[1], 2⟩ 2 ([] : List Nat)).1 (by decide),
   (C7_reserve ⟨[1], 1⟩ 3 ([] : List Nat)).2.1 (by decide),
   (C7_reserve ⟨[1], 1⟩ 3 [2, 3]).2.2 (by decide)⟩

/-- C8: `Resize(n)` with `n ≤ size` keeps the first `n` elements
(destroying exactly `[n, size)`) and the capacity; with `n > size` it
keeps the first `size` values and default-constructs `[size, n)`; in
both cases the final size is `n`; and when default construction fails
partway the exception escapes with the element sequence — hence the
size — unchanged (`size_ = new_size` runs only after construction
completes). -/
theorem C8_resize {α : Type} (v : Vector α) (d : α) (n : Nat)
    (ds : Nat → Option α) :
    (n ≤ v.elems.length →
      (v.Resize d n).elems = v.elems.take n ∧
      (v.Resize d n).cap = v.cap ∧
      (v.Resize d n).elems.length = n) ∧
    (v.elems.length < n →
      (v.Resize d n).elems = v.elems ++ List.replicate (n - v.elems.length) d ∧
      (v.Resize d n).elems.length = n) ∧
    (v.elems.length < n → constructN ds 0 (n - v.elems.length) = none →
      (v.ResizeF ds n).1 = true ∧ (v.ResizeF ds n).2.elems = v.elems) := by
  refine ⟨?_, ?_, ?_⟩
  · intro h
    rw [Vector.Resize_shrink v d n h]
    refine ⟨rfl, rfl, ?_⟩
    simp only [List.length_take]
    omega
  · intro h
    rw [Vector.Resize_grow v d n h]
    refine ⟨rfl, ?_⟩
    simp only [List.length_append, List.length_replicate]
    omega
  · intro h hnone
    unfold Vector.ResizeF
    rw [if_neg (by omega), hnone]
    exact ⟨rfl, Vector.Reserve_elems v n⟩

/-- Witness for C8: shrinking, growing, and a failing growth at
concrete inputs. -/
theorem C8_witness :
    ((Vector.Resize (⟨[1, 2, 3], 4⟩ : Vector Nat) 0 1).elems = [1] ∧
      (Vector.Resize (⟨[1, 2, 3], 4⟩ : Vector Nat) 0 1).cap = 4 ∧
      (Vector.Resize (⟨[1, 2, 3], 4⟩ : Vector Nat) 0 1).elems.length = 1) ∧
    ((Vector.Resize (⟨[1], 1⟩ : Vector Nat) 0 3).elems = [1, 0, 0] ∧
      (Vector.Resize (⟨[1], 1⟩ : Vector Nat) 0 3).elems.length = 3) ∧
    ((Vector.ResizeF (⟨[1], 1⟩ : Vector Nat) (fun _ => none) 3).1 = true ∧
      (Vector.ResizeF (⟨[1], 1⟩ : Vector Nat) (fun _ => none) 3).2.elems = [1]) := by
  refine ⟨(C8_resize ⟨[1, 2, 3], 4⟩ 0 1 (fun _ => none)).1 (by decide), ?_,
    (C8_resize ⟨[1], 1⟩ 0 3 (fun _ => none)).2.2 (by decide) rfl⟩
  have h := (C8_resize (⟨[1], 1⟩ : Vector Nat) 0 3 (fun _ => none)).2.1 (by decide)
  simpa using h

/-- C9: move assignment swaps the whole block-plus-size identity of the
two vectors with no per-element work: afterwards the target holds the
source's former elements and capacity and the source holds the
target's; the embedding is a total function, mirroring that the
operation (a noexcept `Swap`) never fails. -/
theorem C9_move_assign_swaps {α : Type} (a b : Vector α) :
    (Vector.MoveAssign a b).1.elems = b.elems ∧
    (Vector.MoveAssign a b).1.cap = b.cap ∧
    (Vector.MoveAssign a b).2.elems = a.elems ∧
    (Vector.MoveAssign a b).2.cap = a.cap :=
  ⟨rfl, rfl, rfl, rfl⟩

/-- C10: self copy-assignment (the `this != &rhs` guard takes the
`isSelf` branch) leaves the vector unchanged — same elements, same
capacity — and performs zero element copies and zero element
destructions. -/
theorem C10_self_copy_assign_id {α : Type} (v : Vector α) :
    Vector.CopyAssign true v v = (v, 0, 0) := rfl

/-- C6, counterexample to the claim as stated: the claim asks that
every public operation that starts from a state satisfying the
invariant and returns normally end in a state satisfying it.  `Emplace`
violates this when an element copy fails during its growth path,
because the failure is swallowed (see C2): from the
invariant-satisfying state `[6]` with capacity 1 (`Inv` holds), an
`Emplace` at position 0 whose suffix copy throws returns normally
(`threw = false`) with size 2, yet the final block holds no live object
in slot 0 (nor 1) — the live-prefix invariant is broken on a normal
return. -/
theorem C6_counterexample :
    (⟨[6], 1⟩ : Vector Nat).Inv ∧
    (EmplaceGrowCopy (some 9) (failAt 6) (⟨[6], 1⟩ : Vector Nat) 0).threw = false ∧
    ¬ livePrefixOk (EmplaceGrowCopy (some 9) (failAt 6) (⟨[6], 1⟩ : Vector Nat) 0) := by
  decide

/-- C6 (amended: restricted to runs in which no element operation
fails, which the growth path of `Emplace` does not survive — see the
counterexample): `0 ≤ size ≤ capacity`, with slots `[0, size)` the live
elements (structural in this embedding: `elems` is the live prefix),
is preserved by every public operation — construction (default, sized,
copy, move), copy and move assignment, `Reserve`, `Resize`,
`PushBack`/`EmplaceBack`, `PopBack`, `Insert`/`Emplace`, `Erase` and
`Swap` — whenever the operation starts from a state satisfying it. -/
theorem C6_invariant_preserved {α : Type} (d x : α) (n i : Nat) (s : Bool)
    (a b v : Vector α) (ha : a.Inv) (hb : b.Inv) (hv : v.Inv) :
    (Vector.empty α).Inv ∧
    (Vector.sized d n).Inv ∧
    (Vector.copyCtor v).Inv ∧
    (Vector.moveCtor v).1.Inv ∧
    (Vector.moveCtor v).2.Inv ∧
    (Vector.CopyAssign s a b).1.Inv ∧
    (Vector.MoveAssign a b).1.Inv ∧
    (Vector.MoveAssign a b).2.Inv ∧
    (Vector.Swap a b).1.Inv ∧
    (Vector.Swap a b).2.Inv ∧
    (v.Reserve n).Inv ∧
    (v.Resize d n).Inv ∧
    (v.EmplaceBack x).Inv ∧
    v.PopBack.Inv ∧
    (v.Emplace i x).Inv ∧
    (v.Erase i).Inv := by
  have hv' : v.elems.length ≤ v.cap := hv
  refine ⟨Nat.le_refl 0, ?_, Nat.le_refl _, hv, Nat.le_refl 0, ?_, hb, ha, hb, ha,
    ?_, ?_, Vector.EmplaceBack_Inv v x, ?_, Vector.Emplace_Inv v i x hv, ?_⟩
  · simp [Vector.Inv, Vector.sized]
  · unfold Vector.CopyAssign
    split
    · exact ha
    · split
      · next h => split <;> exact h
      · exact Nat.le_refl _
  · rw [Vector.Inv, Vector.Reserve_elems, Vector.Reserve_cap]
    exact Nat.le_trans hv' (Nat.le_max_left v.cap n)
  · rcases Nat.lt_or_ge v.elems.length n with h | h
    · rw [Vector.Resize_grow v d n h]
      simp only [Vector.Inv, List.length_append, List.length_replicate]
      have := Nat.le_max_right v.cap n
      omega
    · rw [Vector.Resize_shrink v d n h]
      simp only [Vector.Inv, List.length_take]
      omega
  · simp only [Vector.Inv, Vector.PopBack, List.length_dropLast]
    omega
  · simp only [Vector.Inv, Vector.Erase, List.length_append,
      List.length_take, List.length_drop]
    omega

/-- Witness for C6 at concrete inputs: the `Emplace` and `Resize`
conjuncts instantiated on small vectors of naturals. -/
theorem C6_witness :
    ((⟨[7], 2⟩ : Vector Nat).Emplace 0 1).Inv ∧
    ((⟨[7], 2⟩ : Vector Nat).Resize 0 3).Inv :=
  ⟨(C6_invariant_preserved 0 1 3 0 false ⟨[1], 1⟩ ⟨[2, 3], 2⟩ ⟨[7], 2⟩
      (by decide) (by decide) (by decide)).2.2.2.2.2.2.2.2.2.2.2.2.2.2.1,
   (C6_invariant_preserved 0 1 3 0 false ⟨[1], 1⟩ ⟨[2, 3], 2⟩ ⟨[7], 2⟩
      (by decide) (by decide) (by decide)).2.2.2.2.2.2.2.2.2.2.2.1⟩

end AdvVector
